import Mathlib

/-!
Verification of the referral / commission-distribution engine.

Monetary values are modelled as exact rationals (`ℚ`).  The source uses
bignumber.js configured with `DECIMAL_PLACES: 18, ROUNDING_MODE: ROUND_DOWN`;
in bignumber.js that configuration applies to operations involving division
(`dividedBy`, square root, negative powers) — addition and `multipliedBy`
always return the exact, unrounded result.  Accordingly multiplication and
addition are modelled by exact `ℚ` arithmetic and `dividedBy` by exact
division followed by `roundDown18` (truncation toward zero at 18 decimal
places).

The Mongo document store is modelled as an association list from user ids to
user records; `findById` is a point lookup and `findOne {referralCode}` a
lookup by the unique secondary key.
-/

/-- `ROUND_DOWN` (truncation toward zero) at 18 decimal places, the rounding
bignumber.js applies to the result of a division under the configuration of
`common/constants.ts`. -/
def roundDown18 (q : ℚ) : ℚ :=
  if 0 ≤ q then (⌊q * 10 ^ 18⌋ : ℚ) / 10 ^ 18
  else -((⌊(-q) * 10 ^ 18⌋ : ℚ) / 10 ^ 18)

/-- `BigNumber.dividedBy`: exact division rounded to 18 decimal places,
toward zero. -/
def dividedBy (x y : ℚ) : ℚ :=
  roundDown18 (x / y)

/-- `COMMISSION_RATES.LEVEL_1 = 0.30` (constants.ts). -/
def COMMISSION_RATES_LEVEL_1 : ℚ := 30 / 100

/-- `COMMISSION_RATES.LEVEL_2 = 0.03` (constants.ts). -/
def COMMISSION_RATES_LEVEL_2 : ℚ := 3 / 100

/-- `COMMISSION_RATES.LEVEL_3 = 0.02` (constants.ts). -/
def COMMISSION_RATES_LEVEL_3 : ℚ := 2 / 100

/-- `FEE_DISTRIBUTION.CASHBACK_RATE = 0.10` (constants.ts). -/
def CASHBACK_RATE : ℚ := 10 / 100

/-- `FEE_DISTRIBUTION.TREASURY_RATE = 0.55` (constants.ts). -/
def TREASURY_RATE : ℚ := 55 / 100

/-- `FEE_DISTRIBUTION.TOTAL_COMMISSION_RATE = 0.35` (constants.ts). -/
def TOTAL_COMMISSION_RATE : ℚ := 35 / 100

/-- `FEE_TIERS.BASE = 0.01` (constants.ts). -/
def FEE_TIERS_BASE : ℚ := 1 / 100

/-- `FEE_TIERS.REDUCED = 0.005` (constants.ts). -/
def FEE_TIERS_REDUCED : ℚ := 5 / 1000

/-- `MAX_REFERRAL_DEPTH = 3` (constants.ts). -/
def MAX_REFERRAL_DEPTH : Nat := 3

/-- Fee tier of a user (`feeTier` in the user schema). -/
inductive FeeTier where
  | BASE
  | REDUCED
deriving DecidableEq, Repr

/-- Discriminator of `customCommissionStructure.type`. -/
inductive CcsType where
  | KOL_DIRECT
  | KOL_CUSTOM
  | WAIVED
deriving DecidableEq, Repr

/-- `CustomCommissionStructure` (common/types.ts): a tagged record with
optional per-level rate overrides and the two independent waiver flags.  The
optional booleans of the schema are modelled as `Bool` (absent ↦ `false`,
matching the `?? false` / optional-chaining reads in the source). -/
structure CustomCommissionStructure where
  type : CcsType
  level1Rate : Option ℚ
  level2Rate : Option ℚ
  level3Rate : Option ℚ
  feesWaived : Bool
  commissionsWaived : Bool
deriving DecidableEq, Repr

/-- User ids (Mongo ObjectIds) are abstracted as naturals. -/
abbrev UserId := Nat

/-- The fields of the `User` schema that the engine reads. -/
structure User where
  referralCode : String
  referrerId : Option UserId
  directReferrals : List UserId
  referralDepth : Nat
  feeTier : FeeTier
  customCommissionStructure : Option CustomCommissionStructure
  totalXpEarned : ℚ
  totalCommissionEarned : ℚ
  totalCashbackEarned : ℚ
deriving DecidableEq, Repr

/-- The user collection: an association list from id to user record. -/
abbrev Store := List (UserId × User)

/-- `userModel.findById` — point lookup. -/
def findById (s : Store) (uid : UserId) : Option User :=
  (s.find? (fun p => p.1 = uid)).map (fun p => p.2)

/-- `userModel.findOne({ referralCode })` — lookup by the unique referral
code, returning the id together with the record. -/
def findEntryByCode (s : Store) (code : String) : Option (UserId × User) :=
  s.find? (fun p => p.2.referralCode = code)

/-- `ReferralService.getCommissionRateForLevel` (referral.service.ts
305-337): waived check, then the custom-structure switch, then the standard
tiers.  A present `levelNRate` is a `BigNumber` object and hence truthy in
the source even when its value is zero, so presence is `Option.isSome`. -/
def getCommissionRateForLevel (level : Nat)
    (customStructure : Option CustomCommissionStructure) : ℚ :=
  if (customStructure.map (fun c => c.commissionsWaived)).getD false then 0
  else
    match customStructure with
    | some c =>
      match c.type with
      | CcsType.KOL_DIRECT => if level = 1 then 50 / 100 else 0
      | CcsType.KOL_CUSTOM =>
        match level, c.level1Rate, c.level2Rate, c.level3Rate with
        | 1, some r, _, _ => r
        | 2, _, some r, _ => r
        | 3, _, _, some r => r
        | _, _, _, _ => standardTier level
      | CcsType.WAIVED => 0
    | none => standardTier level
where
  /-- The trailing `switch (level)` over the standard tiers. -/
  standardTier (level : Nat) : ℚ :=
    match level with
    | 1 => COMMISSION_RATES_LEVEL_1
    | 2 => COMMISSION_RATES_LEVEL_2
    | 3 => COMMISSION_RATES_LEVEL_3
    | _ => 0

/-- One element of the list returned by `getReferralChain`
(`ReferralChain` in common/types.ts). -/
structure ChainEntry where
  userId : UserId
  level : Nat
  referralCode : String
deriving DecidableEq, Repr

/-- Loop body of `ReferralService.getReferralChain` (referral.service.ts
102-122).  The source loop runs `while (currentUser?.referrerId && level <=
MAX_REFERRAL_DEPTH)`; the fuel argument equals
`MAX_REFERRAL_DEPTH - level + 1`, so fuel `0` is the `level > 3` exit. -/
def getReferralChainAux (s : Store) : Nat → User → Nat → List ChainEntry
  | 0, _, _ => []
  | fuel + 1, cur, level =>
    match cur.referrerId with
    | none => []
    | some rid =>
      match findById s rid with
      | none => []
      | some r =>
        ⟨rid, level, r.referralCode⟩ :: getReferralChainAux s fuel r (level + 1)

/-- `ReferralService.getReferralChain`: walk the parent pointers from the
given user, labelling ancestors with levels 1, 2, … up to
`MAX_REFERRAL_DEPTH`. -/
def getReferralChain (s : Store) (uid : UserId) : List ChainEntry :=
  match findById s uid with
  | none => []
  | some u => getReferralChainAux s MAX_REFERRAL_DEPTH u 1

/-- Loop of `ReferralService.calculateReferralDepth` (referral.service.ts
382-392): `while (currentUser?.referrerId) { depth++; currentUser =
findById(referrerId) }`.  The source loop is unbounded (it would diverge on
a cyclic store), so the model takes a fuel bound and returns `none` when the
loop would still be running after `fuel` iterations. -/
def calculateReferralDepthAux (s : Store) : Nat → Option User → Nat → Option Nat
  | _, none, depth => some depth
  | fuel, some u, depth =>
    match u.referrerId with
    | none => some depth
    | some rid =>
      match fuel with
      | 0 => none
      | fuel + 1 => calculateReferralDepthAux s fuel (findById s rid) (depth + 1)

/-- `ReferralService.calculateReferralDepth`. -/
def calculateReferralDepth (s : Store) (uid : UserId) (fuel : Nat) : Option Nat :=
  calculateReferralDepthAux s fuel (findById s uid) 0

/-- Chains of the system (`Chain` in constants.ts). -/
inductive Chain where
  | ARBITRUM
  | SOLANA
deriving DecidableEq, Repr

/-- `CommissionBreakdown` (common/types.ts). -/
structure CommissionBreakdown where
  level : Nat
  userId : UserId
  amount : ℚ
  rate : ℚ
deriving DecidableEq, Repr

/-- `FeeDistribution` (common/types.ts). -/
structure FeeDistribution where
  traderId : UserId
  totalFee : ℚ
  cashback : ℚ
  commissions : List CommissionBreakdown
  treasury : ℚ
  chain : Chain
  token : String
deriving DecidableEq, Repr

/-- `TradeService.getFeeRateForTier` (trade.service.ts 241-248). -/
def getFeeRateForTier (tier : FeeTier) : ℚ :=
  match tier with
  | FeeTier.REDUCED => FEE_TIERS_REDUCED
  | FeeTier.BASE => FEE_TIERS_BASE

/-- The commission rate an ancestor-chain entry resolves to: look the
referrer up, and apply `getCommissionRateForLevel` to its custom structure
(`TradeService.calculateCommissionBreakdown` loop body).  A dangling entry
(referrer record missing) resolves to 0, matching the `continue` in the
source. -/
def chainEntryRate (s : Store) (e : ChainEntry) : ℚ :=
  match findById s e.userId with
  | none => 0
  | some ru => getCommissionRateForLevel e.level ru.customCommissionStructure

/-- `TradeService.calculateCommissionBreakdown` (trade.service.ts 138-181):
walk the referral chain; for each entry look up the referrer (skipping
missing records), resolve its rate, and emit `{level, userId, amount =
totalFee × rate, rate}` when the rate is strictly positive. -/
def calculateCommissionBreakdown (s : Store) (traderId : UserId)
    (totalFee : ℚ) : List CommissionBreakdown :=
  (getReferralChain s traderId).filterMap (fun e =>
    match findById s e.userId with
    | none => none
    | some ru =>
      let rate := getCommissionRateForLevel e.level ru.customCommissionStructure
      if 0 < rate then
        some ⟨e.level, e.userId, totalFee * rate, rate⟩
      else none)

/-- `TradeService.calculateFeeDistribution` (trade.service.ts 91-136):
waived fees force `totalFee = 0`; a zero total fee short-circuits to the
all-zero distribution with an empty commission list; otherwise cashback and
treasury are the exact products with the configured rates and the commission
list is the breakdown over the ancestor chain. -/
def calculateFeeDistribution (s : Store) (uid : UserId) (user : User)
    (volume : ℚ) (chain : Chain) (token : String) : FeeDistribution :=
  let isFeesWaived :=
    (user.customCommissionStructure.map (fun c => c.feesWaived)).getD false
  let totalFee : ℚ :=
    if isFeesWaived then 0 else volume * getFeeRateForTier user.feeTier
  if totalFee = 0 then
    { traderId := uid, totalFee := totalFee, cashback := 0,
      commissions := [], treasury := 0, chain := chain, token := token }
  else
    { traderId := uid, totalFee := totalFee,
      cashback := totalFee * CASHBACK_RATE,
      commissions := calculateCommissionBreakdown s uid totalFee,
      treasury := totalFee * TREASURY_RATE, chain := chain, token := token }

/-- Sum of the amounts of a commission list. -/
def commissionSum (l : List CommissionBreakdown) : ℚ :=
  (l.map (fun c => c.amount)).sum

/-- The fields of a persisted `Commission` document that the engine
computes (`TradeService.distributeCommissions`, trade.service.ts 189-201).
Note the source computes `tradeVolume` as
`totalFee.dividedBy(getFeeRateForTier('BASE'))` with the tier hardcoded to
`'BASE'`. -/
structure CommissionDoc where
  userId : UserId
  sourceUserId : UserId
  level : Nat
  amount : ℚ
  rate : ℚ
  tradeVolume : ℚ
  tradeFee : ℚ
  token : String
  chain : Chain
  isClaimed : Bool
deriving DecidableEq, Repr

/-- The commission documents built by `TradeService.distributeCommissions`
(trade.service.ts 189-201). -/
def distributeCommissionsDocs (sourceUserId : UserId)
    (distribution : FeeDistribution) : List CommissionDoc :=
  distribution.commissions.map (fun comm =>
    { userId := comm.userId
      sourceUserId := sourceUserId
      level := comm.level
      amount := comm.amount
      rate := comm.rate
      tradeVolume := dividedBy distribution.totalFee (getFeeRateForTier FeeTier.BASE)
      tradeFee := distribution.totalFee
      token := distribution.token
      chain := distribution.chain
      isClaimed := false })

/-- Error taxonomy of the service layer: `NotFoundException`,
`BadRequestException` (invalid input), `ConflictException`. `divergence`
has no counterpart in the source: it models the unbounded
`calculateReferralDepth` loop exceeding the model's fuel (on the stores the
theorems consider, enough fuel is always supplied). -/
inductive SvcError where
  | notFound
  | invalidInput
  | conflict
  | divergence
deriving DecidableEq, Repr

/-- Result of a successful `registerWithReferral`: the created user, its
fresh id, and the updated store. -/
structure RegResult where
  user : User
  userId : UserId
  store : Store
deriving Repr

/-- `$push` of a child id onto the referrer's `directReferrals`
(referral.service.ts 81-84). -/
def pushChild (s : Store) (rid : UserId) (child : UserId) : Store :=
  s.map (fun p =>
    if p.1 = rid then (p.1, { p.2 with directReferrals := p.2.directReferrals ++ [child] })
    else p)

/-- The retry loop of `ReferralService.registerWithReferral`
(referral.service.ts 66-97): up to `remaining` further attempts, taking
attempt number `attempt` next.  `gen` is the stream of codes produced by the
nanoid generator, indexed by attempt; a candidate colliding with an existing
code models the duplicate-key error and causes a retry. -/
def registerAttempts (s : Store) (newId : UserId) (rid : UserId)
    (referrerDepth : Nat) (gen : Nat → String) :
    Nat → Nat → Except SvcError RegResult
  | _, 0 => Except.error SvcError.conflict
  | attempt, remaining + 1 =>
    let newReferralCode := gen attempt
    if (findEntryByCode s newReferralCode).isSome then
      registerAttempts s newId rid referrerDepth gen (attempt + 1) remaining
    else
      let user : User :=
        { referralCode := newReferralCode
          referrerId := some rid
          directReferrals := []
          referralDepth := referrerDepth + 1
          feeTier := FeeTier.BASE
          customCommissionStructure := none
          totalXpEarned := 0
          totalCommissionEarned := 0
          totalCashbackEarned := 0 }
      Except.ok ⟨user, newId, pushChild ((newId, user) :: s) rid newId⟩

/-- `ReferralService.registerWithReferral` (referral.service.ts 54-100):
resolve the referral code, compute the owner's depth by walking the
ancestor chain, reject at `MAX_REFERRAL_DEPTH`, and otherwise create the
new user (retrying the code draw on collision) and link it under the
referrer.  An error return creates no user and leaves the store unchanged. -/
def registerWithReferral (s : Store) (newId : UserId) (gen : Nat → String)
    (fuel : Nat) (referralCode : String) : Except SvcError RegResult :=
  match findEntryByCode s referralCode with
  | none => Except.error SvcError.notFound
  | some (rid, _) =>
    match calculateReferralDepth s rid fuel with
    | none => Except.error SvcError.divergence
    | some referrerDepth =>
      if MAX_REFERRAL_DEPTH ≤ referrerDepth then
        Except.error SvcError.invalidInput
      else
        registerAttempts s newId rid referrerDepth gen 0 10

/-- `ReferralService.getClaimableAmount` (referral.service.ts 283-303):
sum the unclaimed commission rows of the user, and read the user's
`totalCashbackEarned`, defaulting to 0 when the user document is absent
(the `?? '0'` fallbacks).  The function has no failure path. -/
def getClaimableAmount (s : Store) (comms : List CommissionDoc)
    (uid : UserId) : Except SvcError (ℚ × ℚ) :=
  let commission :=
    ((comms.filter (fun c => c.userId = uid ∧ c.isClaimed = false)).map
      (fun c => c.amount)).sum
  let cashback :=
    match findById s uid with
    | some u => u.totalCashbackEarned
    | none => 0
  Except.ok (commission, cashback)

/-- Observable persistence steps of `TradeService.processTrade`, in program
order.  `referrerIncrement` is the atomic `$inc` of a referrer's
`totalCommissionEarned` and `totalXpEarned` by the commission amount;
`cashbackIncrement` the atomic `$inc` of the trader's `totalCashbackEarned`
and `totalXpEarned` by the cashback amount (`updateUserStats`). -/
inductive TraceEvent where
  | tradeSaved (commissionsDistributed : Bool)
  | commissionInsert (userId : UserId) (amount : ℚ)
  | referrerIncrement (userId : UserId) (amount : ℚ)
  | flagFlip
  | cashbackIncrement (userId : UserId) (amount : ℚ)
deriving DecidableEq, Repr

/-- The sequence of persistence steps performed by
`TradeService.processTrade` (trade.service.ts 54-88) on its success path:
save the trade with `commissionsDistributed=false`; bulk-insert the
commission documents and apply the per-referrer `$inc`s
(`distributeCommissions`); save the trade again with
`commissionsDistributed=true` and `distributedAt` stamped; finally apply
the trader's cashback `$inc` (`updateUserStats`). -/
def processTradeTrace (s : Store) (uid : UserId) (user : User)
    (volume : ℚ) (chain : Chain) (token : String) : List TraceEvent :=
  let d := calculateFeeDistribution s uid user volume chain token
  [TraceEvent.tradeSaved false]
    ++ d.commissions.map (fun c => TraceEvent.commissionInsert c.userId c.amount)
    ++ d.commissions.map (fun c => TraceEvent.referrerIncrement c.userId c.amount)
    ++ [TraceEvent.flagFlip]
    ++ [TraceEvent.cashbackIncrement uid d.cashback]

/-- Spec §4.2 standard tiers, in the spec's words: level 1 → 0.30, level 2
→ 0.03, level 3 → 0.02, any other level → 0. -/
def specStandardTier (level : Nat) : ℚ :=
  match level with
  | 1 => 30 / 100
  | 2 => 3 / 100
  | 3 => 2 / 100
  | _ => 0

/-- The structure's `level{N}Rate` for the requested level, when present
(spec §4.2 step 2, KOL_CUSTOM). -/
def levelRateOf (c : CustomCommissionStructure) (level : Nat) : Option ℚ :=
  match level with
  | 1 => c.level1Rate
  | 2 => c.level2Rate
  | 3 => c.level3Rate
  | _ => none

/-- `rateForLevel` as the spec states it (§4.2): 1. commissionsWaived → 0
regardless of type; 2. else with a custom structure present: KOL_DIRECT →
0.50 at level 1 else 0, KOL_CUSTOM → the structure's `level{N}Rate` if
present for the requested level else fall through to step 3, WAIVED → 0;
3. the standard tiers. -/
def rateForLevelSpec (level : Nat)
    (customStructure : Option CustomCommissionStructure) : ℚ :=
  match customStructure with
  | some c =>
    if c.commissionsWaived then 0
    else
      match c.type with
      | CcsType.KOL_DIRECT => if level = 1 then 50 / 100 else 0
      | CcsType.KOL_CUSTOM =>
        match levelRateOf c level with
        | some r => r
        | none => specStandardTier level
      | CcsType.WAIVED => 0
  | none => specStandardTier level

/-- Referential integrity of the user collection: every stored
`referrerId` resolves to a stored user (the spec's acyclic-parent-chain
data-model invariant presupposes this). -/
def storeClosed (s : Store) : Prop :=
  ∀ p ∈ s, ∀ rid, p.2.referrerId = some rid → (findById s rid).isSome = true

/-- Fixture: a root user (no referrer, depth 0, BASE tier, no custom
structure, zero running totals). -/
def rootUser (code : String) : User :=
  { referralCode := code
    referrerId := none
    directReferrals := []
    referralDepth := 0
    feeTier := FeeTier.BASE
    customCommissionStructure := none
    totalXpEarned := 0
    totalCommissionEarned := 0
    totalCashbackEarned := 0 }

/-- Fixture: a user registered under `rid` at the given depth. -/
def childUser (code : String) (rid : UserId) (depth : Nat) : User :=
  { rootUser code with referrerId := some rid, referralDepth := depth }

/-- Fixture: attach a custom commission structure. -/
def withStructure (u : User) (c : CustomCommissionStructure) : User :=
  { u with customCommissionStructure := some c }

/-- Fixture: set the fee tier. -/
def withTier (u : User) (t : FeeTier) : User :=
  { u with feeTier := t }

/-- Fixture: a KOL_DIRECT custom structure with no overrides or waivers. -/
def kolDirectCcs : CustomCommissionStructure :=
  ⟨CcsType.KOL_DIRECT, none, none, none, false, false⟩

/-- Fixture: a structure with `commissionsWaived` set. -/
def commWaivedCcs : CustomCommissionStructure :=
  ⟨CcsType.KOL_CUSTOM, none, none, none, false, true⟩

/-- Fixture: a structure with `feesWaived` set. -/
def feesWaivedCcs : CustomCommissionStructure :=
  ⟨CcsType.WAIVED, none, none, none, true, false⟩

/-- Fixture store for C1's counterexample: trader 0 referred by user 1, who
has a KOL_DIRECT structure (level-1 rate 0.50). -/
def c1Store : Store :=
  [(0, childUser "TRADER01" 1 1),
   (1, withStructure (rootUser "KOLUSER1") kolDirectCcs)]

/-- Fixture store for C2: a root trader with BASE tier. -/
def c2Store : Store := [(0, rootUser "TRADER02")]

/-- Fixture store for C7's counterexample: a root trader. -/
def c7Store : Store := [(0, rootUser "TRADER07")]

/-- Fixture store for C9: a REDUCED-tier trader 0 referred by user 1. -/
def c9Store : Store :=
  [(0, withTier (childUser "TRADER09" 1 1) FeeTier.REDUCED),
   (1, rootUser "REFUSER9")]

/-- Fixture store for C6's witness: a single root user. -/
def c6Store : Store := [(0, rootUser "ROOTCODE")]

/-- Fixture store for C6's witness, error branch: a chain of depth 3; user 3
has referral depth 3, so registration under its code must be rejected. -/
def c6DeepStore : Store :=
  [(0, rootUser "AAAACODE"),
   (1, childUser "BBBBCODE" 0 1),
   (2, childUser "CCCCCODE" 1 2),
   (3, childUser "DDDDCODE" 2 3)]

/-- Fixture store for C8's witness: trader 0 with a two-ancestor chain. -/
def c8Store : Store :=
  [(0, childUser "WWWW0000" 1 1),
   (1, childUser "WWWW1111" 2 2),
   (2, rootUser "WWWW2222")]

/-- Fixture store for C4's witness: trader 0 whose level-1 ancestor has
commissions waived (rate 0, must be omitted) and whose level-2 ancestor is
standard (rate 0.03, must be emitted). -/
def c4Store : Store :=
  [(0, childUser "FOUR0000" 1 1),
   (1, withStructure (childUser "FOUR1111" 2 2) commWaivedCcs),
   (2, rootUser "FOUR2222")]

/-- Fixture for C5's witness: a trader with `feesWaived` set. -/
def c5Trader : User := withStructure (rootUser "FIVE0000") feesWaivedCcs

/-- C3: the commission-rate resolver agrees with the spec's resolution
order at every level and for every optional custom structure: waived → 0
regardless of type; KOL_DIRECT → 0.50 at level 1 else 0; KOL_CUSTOM → the
level's override when present, else the standard tier; WAIVED → 0; no
structure → the standard tiers 0.30 / 0.03 / 0.02 / 0. -/
theorem c3_rate_resolver_spec (level : Nat)
    (cs : Option CustomCommissionStructure) :
    getCommissionRateForLevel level cs = rateForLevelSpec level cs := by
  rcases cs with _ | ⟨t, r1, r2, r3, fw, cw⟩
  · rcases level with _ | _ | _ | _ | n <;> rfl
  · cases cw <;> cases t <;>
      rcases r1 with _ | r1 <;> rcases r2 with _ | r2 <;> rcases r3 with _ | r3 <;>
      rcases level with _ | _ | _ | _ | n <;> rfl

/-- C5: when the trader's fees are waived, or the computed total fee is
zero for any other reason, the distribution is all-zero with an empty
commission list, and the result does not depend on the store at all (no
ancestor-chain walk is performed: any two stores give the same result). -/
theorem c5_zero_fee_short_circuit (s₁ s₂ : Store) (uid : UserId) (u : User)
    (volume : ℚ) (chain : Chain) (token : String)
    (h : (u.customCommissionStructure.map (fun c => c.feesWaived)).getD false = true ∨
         volume * getFeeRateForTier u.feeTier = 0) :
    calculateFeeDistribution s₁ uid u volume chain token =
      { traderId := uid, totalFee := 0, cashback := 0, commissions := [],
        treasury := 0, chain := chain, token := token } ∧
    calculateFeeDistribution s₁ uid u volume chain token =
      calculateFeeDistribution s₂ uid u volume chain token := by
  have hz : ∀ s : Store, calculateFeeDistribution s uid u volume chain token =
      { traderId := uid, totalFee := 0, cashback := 0, commissions := [],
        treasury := 0, chain := chain, token := token } := by
    intro s
    unfold calculateFeeDistribution
    rcases h with h | h
    · simp [h]
    · by_cases hw : (u.customCommissionStructure.map (fun c => c.feesWaived)).getD false = true
      · simp [hw]
      · simp [hw, h]
  exact ⟨hz s₁, (hz s₁).trans (hz s₂).symm⟩

/-- C5 witness: a feesWaived trader gives the all-zero distribution, and the
result is the same over a populated store and the empty store. -/
theorem c5_witness :
    ((c5Trader.customCommissionStructure.map (fun c => c.feesWaived)).getD false = true ∨
      (123456 : ℚ) * getFeeRateForTier c5Trader.feeTier = 0) ∧
    (calculateFeeDistribution c8Store 0 c5Trader 123456 Chain.SOLANA "ETH" =
      { traderId := 0, totalFee := 0, cashback := 0, commissions := [],
        treasury := 0, chain := Chain.SOLANA, token := "ETH" } ∧
     calculateFeeDistribution c8Store 0 c5Trader 123456 Chain.SOLANA "ETH" =
      calculateFeeDistribution [] 0 c5Trader 123456 Chain.SOLANA "ETH") :=
  ⟨Or.inl (by decide),
   c5_zero_fee_short_circuit c8Store [] 0 c5Trader 123456 Chain.SOLANA "ETH"
     (Or.inl (by decide))⟩

/-- C10: for a user id with no user document and no commission rows, the
claimable-amount query does not fail: it returns commission 0 and cashback
0 rather than a NotFound error. -/
theorem c10_claimable_no_user (s : Store) (comms : List CommissionDoc)
    (uid : UserId) (hu : findById s uid = none)
    (hc : ∀ c ∈ comms, c.userId ≠ uid) :
    getClaimableAmount s comms uid = Except.ok (0, 0) := by
  unfold getClaimableAmount
  have hfilter :
      (comms.filter (fun c => c.userId = uid ∧ c.isClaimed = false)) = [] := by
    rw [List.filter_eq_nil_iff]
    intro c hcmem
    simp only [decide_eq_true_eq, not_and]
    intro h
    exact absurd h (hc c hcmem)
  rw [hfilter, hu]
  simp

/-- C10 witness: the empty store and empty commission collection. -/
theorem c10_witness :
    (findById [] 0 = none ∧ ∀ c ∈ ([] : List CommissionDoc), c.userId ≠ 0) ∧
    getClaimableAmount [] [] 0 = Except.ok (0, 0) :=
  ⟨⟨by decide, by simp⟩, c10_claimable_no_user [] [] 0 (by decide) (by simp)⟩

/-- C2 (amended): for every trade with non-zero total fee, cashback equals
exactly `totalFee × 0.10` and treasury exactly `totalFee × 0.55`.  The
products are exact — bignumber.js `multipliedBy` never rounds, so no
truncation to 18 decimal places occurs (the 18-digit ROUND_DOWN policy
applies only to division); outputs remain exactly determined by the
input. -/
theorem c2_cashback_treasury_exact (s : Store) (uid : UserId) (u : User)
    (volume : ℚ) (chain : Chain) (token : String)
    (h : (calculateFeeDistribution s uid u volume chain token).totalFee ≠ 0) :
    (calculateFeeDistribution s uid u volume chain token).cashback =
      (calculateFeeDistribution s uid u volume chain token).totalFee * CASHBACK_RATE ∧
    (calculateFeeDistribution s uid u volume chain token).treasury =
      (calculateFeeDistribution s uid u volume chain token).totalFee * TREASURY_RATE := by
  by_cases hz :
      (if (u.customCommissionStructure.map (fun c => c.feesWaived)).getD false
        then (0 : ℚ) else volume * getFeeRateForTier u.feeTier) = 0
  · exact absurd (by simp [calculateFeeDistribution, hz]) h
  · constructor <;> simp [calculateFeeDistribution, hz]

/-- C2 counterexample: at volume 10⁻¹⁸ (BASE tier) the total fee is 10⁻²⁰
and the computed cashback is 10⁻²¹, which is non-zero — whereas the claimed
truncation of the product to 18 decimal places would give 0.  The code's
multiplication is exact, not truncated. -/
theorem c2_counterexample :
    (calculateFeeDistribution c2Store 0 (rootUser "TRADER02")
        (1 / 10 ^ 18) Chain.ARBITRUM "BTC").totalFee ≠ 0 ∧
    (calculateFeeDistribution c2Store 0 (rootUser "TRADER02")
        (1 / 10 ^ 18) Chain.ARBITRUM "BTC").cashback ≠
      roundDown18
        ((calculateFeeDistribution c2Store 0 (rootUser "TRADER02")
            (1 / 10 ^ 18) Chain.ARBITRUM "BTC").totalFee * CASHBACK_RATE) := by
  constructor
  · norm_num [calculateFeeDistribution, rootUser, getFeeRateForTier, FEE_TIERS_BASE]
  · norm_num [calculateFeeDistribution, rootUser, getFeeRateForTier, FEE_TIERS_BASE,
      CASHBACK_RATE, roundDown18, calculateCommissionBreakdown, getReferralChain,
      findById, c2Store, List.find?, getReferralChainAux]

/-- C2 witness: a BASE-tier trade of volume 100 has total fee 1 ≠ 0, and
the exact cashback/treasury identities hold there. -/
theorem c2_witness :
    ((calculateFeeDistribution c2Store 0 (rootUser "TRADER02") 100
        Chain.ARBITRUM "BTC").totalFee ≠ 0) ∧
    ((calculateFeeDistribution c2Store 0 (rootUser "TRADER02") 100
        Chain.ARBITRUM "BTC").cashback =
      (calculateFeeDistribution c2Store 0 (rootUser "TRADER02") 100
        Chain.ARBITRUM "BTC").totalFee * CASHBACK_RATE ∧
     (calculateFeeDistribution c2Store 0 (rootUser "TRADER02") 100
        Chain.ARBITRUM "BTC").treasury =
      (calculateFeeDistribution c2Store 0 (rootUser "TRADER02") 100
        Chain.ARBITRUM "BTC").totalFee * TREASURY_RATE) :=
  ⟨by norm_num [calculateFeeDistribution, rootUser, getFeeRateForTier, FEE_TIERS_BASE],
   c2_cashback_treasury_exact c2Store 0 (rootUser "TRADER02") 100
     Chain.ARBITRUM "BTC"
     (by norm_num [calculateFeeDistribution, rootUser, getFeeRateForTier, FEE_TIERS_BASE])⟩

/-- C9: evaluation of the code at the failing input.  A REDUCED-tier trader
trades volume 10000: the total fee is 50, but the persisted commission
document's `tradeVolume` is `totalFee ÷ feeRate(BASE)` with the BASE tier
hardcoded, giving 5000 — half the trade's actual volume of 10000.  (The
`tradeFee` snapshot, by contrast, does equal the total fee.) -/
theorem c9_tradeVolume_snapshot_bug :
    (calculateFeeDistribution c9Store 0
        (withTier (childUser "TRADER09" 1 1) FeeTier.REDUCED) 10000
        Chain.ARBITRUM "BTC").totalFee = 50 ∧
    ((distributeCommissionsDocs 0
        (calculateFeeDistribution c9Store 0
          (withTier (childUser "TRADER09" 1 1) FeeTier.REDUCED) 10000
          Chain.ARBITRUM "BTC")).map (fun doc => doc.tradeVolume)) = [5000] ∧
    ((distributeCommissionsDocs 0
        (calculateFeeDistribution c9Store 0
          (withTier (childUser "TRADER09" 1 1) FeeTier.REDUCED) 10000
          Chain.ARBITRUM "BTC")).map (fun doc => doc.tradeFee)) = [50] ∧
    (5000 : ℚ) ≠ 10000 := by
  have hd : calculateFeeDistribution c9Store 0
      (withTier (childUser "TRADER09" 1 1) FeeTier.REDUCED) 10000
      Chain.ARBITRUM "BTC" =
      { traderId := 0, totalFee := 50, cashback := 5,
        commissions := [⟨1, 1, 15, 3 / 10⟩], treasury := 55 / 2,
        chain := Chain.ARBITRUM, token := "BTC" } := by
    norm_num [calculateFeeDistribution, withTier, childUser, rootUser,
      getFeeRateForTier, FEE_TIERS_REDUCED, CASHBACK_RATE, TREASURY_RATE,
      calculateCommissionBreakdown, getReferralChain, getReferralChainAux,
      findById, c9Store, List.find?, getCommissionRateForLevel,
      getCommissionRateForLevel.standardTier, COMMISSION_RATES_LEVEL_1,
      List.filterMap_cons]
  rw [hd]
  refine ⟨rfl, ?_, ?_, by norm_num⟩ <;>
    norm_num [distributeCommissionsDocs, dividedBy, roundDown18,
      getFeeRateForTier, FEE_TIERS_BASE]

/-- C7 (amended): in `processTrade`, the `commissionsDistributed` flag flip
comes after the trade save, all commission inserts and all referrer balance
increments — but the trader's cashback/XP increment (`updateUserStats`)
happens after the flag flip, not before it: the trace ends with the flip
immediately followed by the cashback increment. -/
theorem c7_flag_order_amended (s : Store) (uid : UserId) (user : User)
    (volume : ℚ) (chain : Chain) (token : String) :
    ∃ pre : List TraceEvent,
      processTradeTrace s uid user volume chain token =
        pre ++ [TraceEvent.flagFlip,
          TraceEvent.cashbackIncrement uid
            (calculateFeeDistribution s uid user volume chain token).cashback] ∧
      ∀ e ∈ pre, e = TraceEvent.tradeSaved false ∨
        ∃ c ∈ (calculateFeeDistribution s uid user volume chain token).commissions,
          e = TraceEvent.commissionInsert c.userId c.amount ∨
          e = TraceEvent.referrerIncrement c.userId c.amount := by
  refine ⟨[TraceEvent.tradeSaved false] ++
    (calculateFeeDistribution s uid user volume chain token).commissions.map
      (fun c => TraceEvent.commissionInsert c.userId c.amount) ++
    (calculateFeeDistribution s uid user volume chain token).commissions.map
      (fun c => TraceEvent.referrerIncrement c.userId c.amount), ?_, ?_⟩
  · simp [processTradeTrace, List.append_assoc]
  · intro e he
    rcases List.mem_append.1 he with he | he
    · rcases List.mem_append.1 he with he | he
      · left; simpa using he
      · right
        rcases List.mem_map.1 he with ⟨c, hc, rfl⟩
        exact ⟨c, hc, Or.inl rfl⟩
    · right
      rcases List.mem_map.1 he with ⟨c, hc, rfl⟩
      exact ⟨c, hc, Or.inr rfl⟩

/-- C7 counterexample: for a root trader trading volume 100, the trace is
`[tradeSaved false, flagFlip, cashbackIncrement]` — there are no positions
with a cashback increment strictly before the flag flip, refuting the claim
that the cashback increment happens before the flip. -/
theorem c7_counterexample :
    ¬ ∃ (i j : Nat) (t : UserId) (a : ℚ), i < j ∧
      (processTradeTrace c7Store 0 (rootUser "TRADER07") 100
        Chain.ARBITRUM "BTC").get? i = some (TraceEvent.cashbackIncrement t a) ∧
      (processTradeTrace c7Store 0 (rootUser "TRADER07") 100
        Chain.ARBITRUM "BTC").get? j = some TraceEvent.flagFlip := by
  have htr : processTradeTrace c7Store 0 (rootUser "TRADER07") 100
      Chain.ARBITRUM "BTC" =
      [TraceEvent.tradeSaved false, TraceEvent.flagFlip,
       TraceEvent.cashbackIncrement 0 (1 / 10)] := by
    norm_num [processTradeTrace, calculateFeeDistribution, rootUser,
      getFeeRateForTier, FEE_TIERS_BASE, CASHBACK_RATE,
      calculateCommissionBreakdown, getReferralChain, getReferralChainAux,
      findById, c7Store, List.find?]
  rintro ⟨i, j, t, a, hij, hi, hj⟩
  rw [htr] at hi hj
  have hj3 : j < 3 := by
    rcases Nat.lt_or_ge j 3 with h | h
    · exact h
    · rw [List.get?_eq_none.mpr (by simpa using h)] at hj
      cases hj
  interval_cases j
  · simp at hj
  · have hi0 : i = 0 := by omega
    subst hi0
    simp at hi
  · simp at hj

/-- A successful `findById` yields a stored entry. -/
theorem findById_mem {s : Store} {uid : UserId} {u : User}
    (h : findById s uid = some u) : (uid, u) ∈ s := by
  unfold findById at h
  rcases Option.map_eq_some'.1 h with ⟨p, hp, hpu⟩
  have hmem := List.mem_of_find?_eq_some hp
  have hpred := List.find?_some hp
  cases p with
  | mk a b =>
    simp only [decide_eq_true_eq] at hpred
    cases hpred
    cases hpu
    exact hmem

/-- The chain walk returns at most `fuel` entries. -/
theorem chainAux_length_le (s : Store) :
    ∀ (f : Nat) (u : User) (lvl : Nat),
      (getReferralChainAux s f u lvl).length ≤ f := by
  intro f
  induction f with
  | zero => intro u lvl; simp [getReferralChainAux]
  | succ f ih =>
    intro u lvl
    cases hr : u.referrerId with
    | none => simp [getReferralChainAux, hr]
    | some rid =>
      cases hf : findById s rid with
      | none => simp [getReferralChainAux, hr, hf]
      | some r =>
        simp only [getReferralChainAux, hr, hf, List.length_cons]
        exact Nat.succ_le_succ (ih r (lvl + 1))

/-- The chain walk labels its entries with consecutive levels starting at
the level it was entered with. -/
theorem chainAux_map_level (s : Store) :
    ∀ (f : Nat) (u : User) (lvl : Nat),
      (getReferralChainAux s f u lvl).map (fun e => e.level) =
        List.range' lvl (getReferralChainAux s f u lvl).length := by
  intro f
  induction f with
  | zero => intro u lvl; simp [getReferralChainAux]
  | succ f ih =>
    intro u lvl
    cases hr : u.referrerId with
    | none => simp [getReferralChainAux, hr]
    | some rid =>
      cases hf : findById s rid with
      | none => simp [getReferralChainAux, hr, hf]
      | some r =>
        simp only [getReferralChainAux, hr, hf, List.map_cons, List.length_cons]
        rw [ih r (lvl + 1)]
        rfl

/-- The depth walk never returns less than its accumulator. -/
theorem depthAux_ge (s : Store) :
    ∀ (f : Nat) (cur : Option User) (acc m : Nat),
      calculateReferralDepthAux s f cur acc = some m → acc ≤ m := by
  intro f
  induction f with
  | zero =>
    intro cur acc m h
    cases cur with
    | none => simp [calculateReferralDepthAux] at h; omega
    | some u =>
      cases hr : u.referrerId with
      | none => simp [calculateReferralDepthAux, hr] at h; omega
      | some rid => simp [calculateReferralDepthAux, hr] at h
  | succ f ih =>
    intro cur acc m h
    cases cur with
    | none => simp [calculateReferralDepthAux] at h; omega
    | some u =>
      cases hr : u.referrerId with
      | none => simp [calculateReferralDepthAux, hr] at h; omega
      | some rid =>
        simp only [calculateReferralDepthAux, hr] at h
        have := ih (findById s rid) (acc + 1) m h
        omega

/-- On a referentially closed store, the chain walk from a stored user
collects `min k f` entries, where `k` is the number of ancestors the depth
walk counts from that user. -/
theorem depthAux_chain_length (s : Store) (hs : storeClosed s) :
    ∀ (fD : Nat) (u : User) (uid0 : UserId) (acc k f lvl : Nat),
      (uid0, u) ∈ s →
      calculateReferralDepthAux s fD (some u) acc = some (acc + k) →
      (getReferralChainAux s f u lvl).length = min k f := by
  intro fD
  induction fD with
  | zero =>
    intro u uid0 acc k f lvl hmem h
    cases hr : u.referrerId with
    | none =>
      simp [calculateReferralDepthAux, hr] at h
      have hk : k = 0 := by omega
      subst hk
      cases f with
      | zero => simp [getReferralChainAux]
      | succ f => simp [getReferralChainAux, hr]
    | some rid => simp [calculateReferralDepthAux, hr] at h
  | succ fD ih =>
    intro u uid0 acc k f lvl hmem h
    cases hr : u.referrerId with
    | none =>
      simp [calculateReferralDepthAux, hr] at h
      have hk : k = 0 := by omega
      subst hk
      cases f with
      | zero => simp [getReferralChainAux]
      | succ f => simp [getReferralChainAux, hr]
    | some rid =>
      simp only [calculateReferralDepthAux, hr] at h
      have hres : (findById s rid).isSome = true := hs (uid0, u) hmem rid hr
      rcases Option.isSome_iff_exists.1 hres with ⟨r, hrid⟩
      rw [hrid] at h
      have hge : acc + 1 ≤ acc + k := depthAux_ge s fD (some r) (acc + 1) (acc + k) h
      obtain ⟨k', rfl⟩ : ∃ k', k = k' + 1 := ⟨k - 1, by omega⟩
      have h' : calculateReferralDepthAux s fD (some r) (acc + 1) =
          some ((acc + 1) + k') := by
        rw [show (acc + 1) + k' = acc + (k' + 1) by omega]
        exact h
      have hrm : (rid, r) ∈ s := findById_mem hrid
      cases f with
      | zero => simp [getReferralChainAux]
      | succ f =>
        simp only [getReferralChainAux, hr, hrid, List.length_cons]
        rw [ih r rid (acc + 1) k' f (lvl + 1) hrm h']
        omega

/-- C8: the ancestor chain has at most MAX_REFERRAL_DEPTH (3) entries; its
levels are consecutive starting at 1 (entry i carries level i+1); and on a
referentially closed store the walk stops at the root or after
MAX_REFERRAL_DEPTH entries, whichever comes first: its length is the
minimum of the user's ancestor count and 3. -/
theorem c8_ancestor_chain (s : Store) (uid : UserId) :
    (getReferralChain s uid).length ≤ MAX_REFERRAL_DEPTH ∧
    (getReferralChain s uid).map (fun e => e.level) =
      List.range' 1 (getReferralChain s uid).length ∧
    (storeClosed s → ∀ (fuel d : Nat),
      calculateReferralDepth s uid fuel = some d →
      (getReferralChain s uid).length = min d MAX_REFERRAL_DEPTH) := by
  refine ⟨?_, ?_, ?_⟩
  · unfold getReferralChain
    cases h : findById s uid with
    | none => simp
    | some u => exact chainAux_length_le s MAX_REFERRAL_DEPTH u 1
  · unfold getReferralChain
    cases h : findById s uid with
    | none => simp
    | some u => exact chainAux_map_level s MAX_REFERRAL_DEPTH u 1
  · intro hs fuel d hd
    unfold calculateReferralDepth at hd
    unfold getReferralChain
    cases h : findById s uid with
    | none =>
      rw [h] at hd
      simp [calculateReferralDepthAux] at hd
      simp [← hd]
    | some u =>
      rw [h] at hd
      exact depthAux_chain_length s hs fuel u uid 0 d MAX_REFERRAL_DEPTH 1
        (findById_mem h) (by simpa using hd)

/-- C8 witness: a trader with exactly two ancestors gets a chain of length
2 = min 2 3, with levels [1, 2]. -/
theorem c8_witness :
    ((getReferralChain c8Store 0).length ≤ MAX_REFERRAL_DEPTH ∧
     (getReferralChain c8Store 0).map (fun e => e.level) =
       List.range' 1 (getReferralChain c8Store 0).length) ∧
    (getReferralChain c8Store 0).length = min 2 MAX_REFERRAL_DEPTH :=
  ⟨⟨(c8_ancestor_chain c8Store 0).1, (c8_ancestor_chain c8Store 0).2.1⟩,
   (c8_ancestor_chain c8Store 0).2.2
     (by
       intro p hp rid hr
       simp only [c8Store, List.mem_cons, List.not_mem_nil, or_false] at hp
       rcases hp with rfl | rfl | rfl
       · simp only [childUser, rootUser] at hr
         injection hr with h
         subst h
         rfl
       · simp only [childUser, rootUser] at hr
         injection hr with h
         subst h
         rfl
       · simp only [childUser, rootUser] at hr
         cases hr)
     10 2 (by rfl)⟩

/-- A successful pass of the code-collision retry loop creates the new user
with `referralDepth = referrerDepth + 1`. -/
theorem registerAttempts_depth (s : Store) (newId rid : UserId) (d : Nat)
    (gen : Nat → String) :
    ∀ (remaining attempt : Nat) (r : RegResult),
      registerAttempts s newId rid d gen attempt remaining = Except.ok r →
      r.user.referralDepth = d + 1 := by
  intro remaining
  induction remaining with
  | zero => intro attempt r h; simp [registerAttempts] at h
  | succ remaining ih =>
    intro attempt r h
    by_cases hc : (findEntryByCode s (gen attempt)).isSome = true
    · simp [registerAttempts, hc] at h
      exact ih (attempt + 1) r h
    · simp [registerAttempts, hc] at h
      subst h
      rfl

/-- C6: registration resolves the referrer by code and computes its depth
by walking the ancestor chain; if that depth is ≥ MAX_REFERRAL_DEPTH (3)
registration fails with the invalid-input condition (creating no user), and
every successful registration creates the new user with `referralDepth`
equal to the walked referrer depth plus 1. -/
theorem c6_register_depth (s : Store) (newId : UserId) (gen : Nat → String)
    (fuel : Nat) (code : String) (rid : UserId) (ref : User) (d : Nat)
    (hfind : findEntryByCode s code = some (rid, ref))
    (hd : calculateReferralDepth s rid fuel = some d) :
    (MAX_REFERRAL_DEPTH ≤ d →
      registerWithReferral s newId gen fuel code =
        Except.error SvcError.invalidInput) ∧
    (∀ r, registerWithReferral s newId gen fuel code = Except.ok r →
      r.user.referralDepth = d + 1) := by
  simp only [registerWithReferral, hfind, hd]
  constructor
  · intro hge
    rw [if_pos hge]
  · intro r hr
    by_cases hge : MAX_REFERRAL_DEPTH ≤ d
    · rw [if_pos hge] at hr; cases hr
    · rw [if_neg hge] at hr
      exact registerAttempts_depth s newId rid d gen 10 0 r hr

/-- C6 witness: registering under the depth-3 user of a 4-deep chain fails
with invalid input; registering under a root succeeds and the created user
has depth 0 + 1 = 1. -/
theorem c6_witness :
    (registerWithReferral c6DeepStore 9 (fun n => "NEWCODE" ++ toString n) 5
        "DDDDCODE" = Except.error SvcError.invalidInput) ∧
    (∀ r, registerWithReferral c6Store 9 (fun _ => "NEWCODE0") 1 "ROOTCODE" =
        Except.ok r → r.user.referralDepth = 0 + 1) ∧
    (registerWithReferral c6Store 9 (fun _ => "NEWCODE0") 1 "ROOTCODE").map
      (fun r => r.user.referralDepth) = Except.ok 1 :=
  ⟨(c6_register_depth c6DeepStore 9 (fun n => "NEWCODE" ++ toString n) 5
      "DDDDCODE" 3 (childUser "DDDDCODE" 2 3) 3 rfl rfl).1 (by decide),
   (c6_register_depth c6Store 9 (fun _ => "NEWCODE0") 1 "ROOTCODE" 0
      (rootUser "ROOTCODE") 0 rfl rfl).2,
   rfl⟩

/-- With a non-zero total fee, the distribution's commission list is the
breakdown over the trader's ancestor chain. -/
theorem feeDist_commissions_eq (s : Store) (uid : UserId) (u : User)
    (volume : ℚ) (chain : Chain) (token : String)
    (htf : (calculateFeeDistribution s uid u volume chain token).totalFee ≠ 0) :
    (calculateFeeDistribution s uid u volume chain token).commissions =
      calculateCommissionBreakdown s uid
        (calculateFeeDistribution s uid u volume chain token).totalFee := by
  by_cases hz :
      (if (u.customCommissionStructure.map (fun c => c.feesWaived)).getD false
        then (0 : ℚ) else volume * getFeeRateForTier u.feeTier) = 0
  · exact absurd (by simp [calculateFeeDistribution, hz]) htf
  · simp [calculateFeeDistribution, hz]

/-- Every emitted commission entry has a strictly positive rate and amount
`totalFee × rate`. -/
theorem breakdown_mem (s : Store) (uid : UserId) (tf : ℚ) :
    ∀ c ∈ calculateCommissionBreakdown s uid tf,
      0 < c.rate ∧ c.amount = tf * c.rate := by
  intro c hc
  unfold calculateCommissionBreakdown at hc
  rcases List.mem_filterMap.1 hc with ⟨e, he, hfe⟩
  cases hf : findById s e.userId with
  | none => rw [hf] at hfe; cases hfe
  | some ru =>
    rw [hf] at hfe
    simp only at hfe
    split_ifs at hfe with hr
    · cases hfe
      exact ⟨hr, rfl⟩

/-- The emitted entries are exactly the chain entries whose resolved rate
is strictly positive, in chain order, carrying that rate. -/
theorem breakdown_map_eq (s : Store) (uid : UserId) (tf : ℚ) :
    (calculateCommissionBreakdown s uid tf).map
        (fun c => (c.level, c.userId, c.rate)) =
      ((getReferralChain s uid).filter (fun e => 0 < chainEntryRate s e)).map
        (fun e => (e.level, e.userId, chainEntryRate s e)) := by
  unfold calculateCommissionBreakdown
  induction getReferralChain s uid with
  | nil => simp
  | cons e l ih =>
    cases hf : findById s e.userId with
    | none =>
      simp [List.filterMap_cons, List.filter_cons, hf, chainEntryRate, ih]
    | some ru =>
      by_cases hr : 0 < getCommissionRateForLevel e.level ru.customCommissionStructure
      · simp [List.filterMap_cons, List.filter_cons, hf, chainEntryRate, hr, ih]
      · simp [List.filterMap_cons, List.filter_cons, hf, chainEntryRate, hr, ih]

/-- C4: for every trade with non-zero total fee, the commission list has
exactly one entry per ancestor whose resolved rate is strictly positive, in
chain order, each with amount `totalFee × rate`; zero-rate ancestors (and
dangling ones) produce no entry at all. -/
theorem c4_commission_entries (s : Store) (uid : UserId) (u : User)
    (volume : ℚ) (chain : Chain) (token : String)
    (htf : (calculateFeeDistribution s uid u volume chain token).totalFee ≠ 0) :
    (∀ c ∈ (calculateFeeDistribution s uid u volume chain token).commissions,
      0 < c.rate ∧
      c.amount =
        (calculateFeeDistribution s uid u volume chain token).totalFee * c.rate) ∧
    (calculateFeeDistribution s uid u volume chain token).commissions.map
        (fun c => (c.level, c.userId, c.rate)) =
      ((getReferralChain s uid).filter (fun e => 0 < chainEntryRate s e)).map
        (fun e => (e.level, e.userId, chainEntryRate s e)) := by
  have hc := feeDist_commissions_eq s uid u volume chain token htf
  constructor
  · intro c hcm
    rw [hc] at hcm
    exact breakdown_mem s uid _ c hcm
  · rw [hc]
    exact breakdown_map_eq s uid _

/-- C4 witness: a trader whose level-1 ancestor has commissions waived and
whose level-2 ancestor is standard emits exactly the level-2 entry. -/
theorem c4_witness :
    ((calculateFeeDistribution c4Store 0 (childUser "FOUR0000" 1 1) 10000
        Chain.ARBITRUM "BTC").totalFee ≠ 0) ∧
    ((∀ c ∈ (calculateFeeDistribution c4Store 0 (childUser "FOUR0000" 1 1) 10000
        Chain.ARBITRUM "BTC").commissions,
      0 < c.rate ∧
      c.amount =
        (calculateFeeDistribution c4Store 0 (childUser "FOUR0000" 1 1) 10000
          Chain.ARBITRUM "BTC").totalFee * c.rate) ∧
    (calculateFeeDistribution c4Store 0 (childUser "FOUR0000" 1 1) 10000
        Chain.ARBITRUM "BTC").commissions.map
        (fun c => (c.level, c.userId, c.rate)) =
      ((getReferralChain c4Store 0).filter (fun e => 0 < chainEntryRate c4Store e)).map
        (fun e => (e.level, e.userId, chainEntryRate c4Store e))) :=
  ⟨by norm_num [calculateFeeDistribution, childUser, rootUser,
      getFeeRateForTier, FEE_TIERS_BASE],
   c4_commission_entries c4Store 0 (childUser "FOUR0000" 1 1) 10000
     Chain.ARBITRUM "BTC"
     (by norm_num [calculateFeeDistribution, childUser, rootUser,
        getFeeRateForTier, FEE_TIERS_BASE])⟩

/-- The standard-tier rate is non-negative at every level. -/
theorem stdRate_nonneg (l : Nat) : 0 ≤ getCommissionRateForLevel l none := by
  rcases l with _ | _ | _ | _ | n
  · exact le_refl 0
  · norm_num [getCommissionRateForLevel, getCommissionRateForLevel.standardTier,
      COMMISSION_RATES_LEVEL_1]
  · norm_num [getCommissionRateForLevel, getCommissionRateForLevel.standardTier,
      COMMISSION_RATES_LEVEL_2]
  · norm_num [getCommissionRateForLevel, getCommissionRateForLevel.standardTier,
      COMMISSION_RATES_LEVEL_3]
  · exact le_refl _

/-- When every entry of a chain segment resolves to a rate bounded by the
standard rate of its level, the emitted commission amounts sum to at most
`totalFee` times the sum of the standard rates over the segment. -/
theorem breakdown_sum_le_aux (s : Store) (tf : ℚ) (htf : 0 ≤ tf) :
    ∀ (l : List ChainEntry),
      (∀ e ∈ l, chainEntryRate s e ≤ getCommissionRateForLevel e.level none) →
      commissionSum (l.filterMap (fun e =>
        match findById s e.userId with
        | none => none
        | some ru =>
          let rate := getCommissionRateForLevel e.level ru.customCommissionStructure
          if 0 < rate then
            some ⟨e.level, e.userId, tf * rate, rate⟩
          else none)) ≤
        tf * ((l.map (fun e => getCommissionRateForLevel e.level none)).sum) := by
  intro l
  induction l with
  | nil => simp [commissionSum]
  | cons e l ih =>
    intro hb
    have hbe := hb e (List.mem_cons_self e l)
    have hbl : ∀ e' ∈ l, chainEntryRate s e' ≤ getCommissionRateForLevel e'.level none :=
      fun e' he' => hb e' (List.mem_cons_of_mem e he')
    have hstd0 : 0 ≤ getCommissionRateForLevel e.level none := stdRate_nonneg e.level
    have hmul0 : 0 ≤ tf * getCommissionRateForLevel e.level none := mul_nonneg htf hstd0
    cases hf : findById s e.userId with
    | none =>
      simp only [List.filterMap_cons, hf, List.map_cons, List.sum_cons, mul_add]
      have := ih hbl
      linarith
    | some ru =>
      have hre : chainEntryRate s e =
          getCommissionRateForLevel e.level ru.customCommissionStructure := by
        simp [chainEntryRate, hf]
      by_cases hr : 0 < getCommissionRateForLevel e.level ru.customCommissionStructure
      · simp only [List.filterMap_cons, hf, hr, if_true, List.map_cons, List.sum_cons,
          mul_add, commissionSum]
        have h1 : tf * getCommissionRateForLevel e.level ru.customCommissionStructure ≤
            tf * getCommissionRateForLevel e.level none :=
          mul_le_mul_of_nonneg_left (hre ▸ hbe) htf
        have h2 := ih hbl
        simp only [commissionSum] at h2
        linarith
      · simp only [List.filterMap_cons, hf, hr, if_false, List.map_cons, List.sum_cons,
          mul_add]
        have := ih hbl
        linarith

/-- The sum of the standard rates over levels 1..n is at most the total
commission rate 0.35 when n ≤ 3. -/
theorem stdSum_range_le (n : Nat) (h : n ≤ 3) :
    ((List.range' 1 n).map (fun l => getCommissionRateForLevel l none)).sum ≤
      TOTAL_COMMISSION_RATE := by
  interval_cases n <;>
    norm_num [List.range', getCommissionRateForLevel,
      getCommissionRateForLevel.standardTier, COMMISSION_RATES_LEVEL_1,
      COMMISSION_RATES_LEVEL_2, COMMISSION_RATES_LEVEL_3, TOTAL_COMMISSION_RATE]

/-- Over the ancestor chain itself, the standard rates sum to at most
0.35: the chain's levels are 1..len with len ≤ 3. -/
theorem chain_std_sum_le (s : Store) (uid : UserId) :
    (((getReferralChain s uid).map
        (fun e => getCommissionRateForLevel e.level none)).sum) ≤
      TOTAL_COMMISSION_RATE := by
  have hmap : (getReferralChain s uid).map
      (fun e => getCommissionRateForLevel e.level none) =
      ((getReferralChain s uid).map (fun e => e.level)).map
        (fun l => getCommissionRateForLevel l none) := by
    rw [List.map_map]
    rfl
  rw [hmap]
  unfold getReferralChain
  cases h : findById s uid with
  | none =>
    norm_num [TOTAL_COMMISSION_RATE]
  | some u =>
    rw [chainAux_map_level s MAX_REFERRAL_DEPTH u 1]
    exact stdSum_range_le _ (chainAux_length_le s MAX_REFERRAL_DEPTH u 1)

/-- C1 (amended): for every valid trade (trader exists, volume
non-negative), if every ancestor's resolved commission rate is at most the
standard rate for its level (in particular whenever no ancestor carries a
rate-raising custom structure), then cashback + treasury + the sum of all
emitted commission amounts is at most totalFee.  KOL_DIRECT (0.50 at level
1) and KOL_CUSTOM structures with rates above the standard tier violate the
bound, as the counterexample shows. -/
theorem c1_fee_split_bound (s : Store) (uid : UserId) (u : User)
    (volume : ℚ) (chain : Chain) (token : String)
    (_hu : findById s uid = some u) (hvol : 0 ≤ volume)
    (hrates : ∀ e ∈ getReferralChain s uid,
      chainEntryRate s e ≤ getCommissionRateForLevel e.level none) :
    (calculateFeeDistribution s uid u volume chain token).cashback +
      (calculateFeeDistribution s uid u volume chain token).treasury +
      commissionSum (calculateFeeDistribution s uid u volume chain token).commissions ≤
      (calculateFeeDistribution s uid u volume chain token).totalFee := by
  by_cases hz :
      (if (u.customCommissionStructure.map (fun c => c.feesWaived)).getD false
        then (0 : ℚ) else volume * getFeeRateForTier u.feeTier) = 0
  · simp [calculateFeeDistribution, hz, commissionSum]
  · have htf0 : 0 ≤
        (if (u.customCommissionStructure.map (fun c => c.feesWaived)).getD false
          then (0 : ℚ) else volume * getFeeRateForTier u.feeTier) := by
      split_ifs
      · exact le_refl 0
      · have hft : 0 ≤ getFeeRateForTier u.feeTier := by
          cases u.feeTier <;>
            norm_num [getFeeRateForTier, FEE_TIERS_BASE, FEE_TIERS_REDUCED]
        exact mul_nonneg hvol hft
    have hcb : (calculateFeeDistribution s uid u volume chain token).cashback =
        (if (u.customCommissionStructure.map (fun c => c.feesWaived)).getD false
          then (0 : ℚ) else volume * getFeeRateForTier u.feeTier) * CASHBACK_RATE := by
      simp [calculateFeeDistribution, hz]
    have htr : (calculateFeeDistribution s uid u volume chain token).treasury =
        (if (u.customCommissionStructure.map (fun c => c.feesWaived)).getD false
          then (0 : ℚ) else volume * getFeeRateForTier u.feeTier) * TREASURY_RATE := by
      simp [calculateFeeDistribution, hz]
    have hcm : (calculateFeeDistribution s uid u volume chain token).commissions =
        calculateCommissionBreakdown s uid
          (if (u.customCommissionStructure.map (fun c => c.feesWaived)).getD false
            then (0 : ℚ) else volume * getFeeRateForTier u.feeTier) := by
      simp [calculateFeeDistribution, hz]
    have htfq : (calculateFeeDistribution s uid u volume chain token).totalFee =
        (if (u.customCommissionStructure.map (fun c => c.feesWaived)).getD false
          then (0 : ℚ) else volume * getFeeRateForTier u.feeTier) := by
      simp [calculateFeeDistribution, hz]
    have hsum : commissionSum (calculateCommissionBreakdown s uid
        (if (u.customCommissionStructure.map (fun c => c.feesWaived)).getD false
          then (0 : ℚ) else volume * getFeeRateForTier u.feeTier)) ≤
        (if (u.customCommissionStructure.map (fun c => c.feesWaived)).getD false
          then (0 : ℚ) else volume * getFeeRateForTier u.feeTier) *
          (((getReferralChain s uid).map
            (fun e => getCommissionRateForLevel e.level none)).sum) := by
      unfold calculateCommissionBreakdown
      exact breakdown_sum_le_aux s _ htf0 (getReferralChain s uid) hrates
    have hstd := chain_std_sum_le s uid
    have h2 : (if (u.customCommissionStructure.map (fun c => c.feesWaived)).getD false
          then (0 : ℚ) else volume * getFeeRateForTier u.feeTier) *
          (((getReferralChain s uid).map
            (fun e => getCommissionRateForLevel e.level none)).sum) ≤
        (if (u.customCommissionStructure.map (fun c => c.feesWaived)).getD false
          then (0 : ℚ) else volume * getFeeRateForTier u.feeTier) *
          TOTAL_COMMISSION_RATE :=
      mul_le_mul_of_nonneg_left hstd htf0
    have hone : (if (u.customCommissionStructure.map (fun c => c.feesWaived)).getD false
          then (0 : ℚ) else volume * getFeeRateForTier u.feeTier) * CASHBACK_RATE +
        (if (u.customCommissionStructure.map (fun c => c.feesWaived)).getD false
          then (0 : ℚ) else volume * getFeeRateForTier u.feeTier) * TREASURY_RATE +
        (if (u.customCommissionStructure.map (fun c => c.feesWaived)).getD false
          then (0 : ℚ) else volume * getFeeRateForTier u.feeTier) *
          TOTAL_COMMISSION_RATE =
        (if (u.customCommissionStructure.map (fun c => c.feesWaived)).getD false
          then (0 : ℚ) else volume * getFeeRateForTier u.feeTier) := by
      unfold CASHBACK_RATE TREASURY_RATE TOTAL_COMMISSION_RATE
      ring
    rw [hcb, htr, hcm, htfq]
    linarith

/-- C1 counterexample: a valid trade (trader exists, volume 10000 > 0) by a
BASE-tier trader whose level-1 ancestor has a KOL_DIRECT structure:
totalFee = 100, cashback = 10, treasury = 55, the single commission is 50,
and 10 + 55 + 50 = 115 > 100 — the claimed bound fails. -/
theorem c1_counterexample :
    findById c1Store 0 = some (childUser "TRADER01" 1 1) ∧
    (0 : ℚ) < 10000 ∧
    ¬ ((calculateFeeDistribution c1Store 0 (childUser "TRADER01" 1 1) 10000
          Chain.ARBITRUM "BTC").cashback +
        (calculateFeeDistribution c1Store 0 (childUser "TRADER01" 1 1) 10000
          Chain.ARBITRUM "BTC").treasury +
        commissionSum (calculateFeeDistribution c1Store 0
          (childUser "TRADER01" 1 1) 10000 Chain.ARBITRUM "BTC").commissions ≤
        (calculateFeeDistribution c1Store 0 (childUser "TRADER01" 1 1) 10000
          Chain.ARBITRUM "BTC").totalFee) := by
  refine ⟨rfl, by norm_num, ?_⟩
  have hd : calculateFeeDistribution c1Store 0 (childUser "TRADER01" 1 1) 10000
      Chain.ARBITRUM "BTC" =
      { traderId := 0, totalFee := 100, cashback := 10,
        commissions := [⟨1, 1, 50, 1 / 2⟩], treasury := 55,
        chain := Chain.ARBITRUM, token := "BTC" } := by
    norm_num [calculateFeeDistribution, childUser, rootUser, withStructure,
      kolDirectCcs, getFeeRateForTier, FEE_TIERS_BASE, CASHBACK_RATE,
      TREASURY_RATE, calculateCommissionBreakdown, getReferralChain,
      getReferralChainAux, findById, c1Store, List.find?,
      getCommissionRateForLevel, List.filterMap_cons]
  rw [hd]
  norm_num [commissionSum]

/-- C1 witness: a BASE-tier trader with two standard-tier ancestors trading
volume 10000: 10 + 55 + (30 + 3) = 98 ≤ 100. -/
theorem c1_witness :
    (findById c8Store 0 = some (childUser "WWWW0000" 1 1) ∧ (0 : ℚ) ≤ 10000) ∧
    ((calculateFeeDistribution c8Store 0 (childUser "WWWW0000" 1 1) 10000
        Chain.ARBITRUM "BTC").cashback +
      (calculateFeeDistribution c8Store 0 (childUser "WWWW0000" 1 1) 10000
        Chain.ARBITRUM "BTC").treasury +
      commissionSum (calculateFeeDistribution c8Store 0
        (childUser "WWWW0000" 1 1) 10000 Chain.ARBITRUM "BTC").commissions ≤
      (calculateFeeDistribution c8Store 0 (childUser "WWWW0000" 1 1) 10000
        Chain.ARBITRUM "BTC").totalFee) :=
  ⟨⟨rfl, by norm_num⟩,
   c1_fee_split_bound c8Store 0 (childUser "WWWW0000" 1 1) 10000
     Chain.ARBITRUM "BTC" rfl (by norm_num)
     (by
       intro e he
       have hch : getReferralChain c8Store 0 =
           [⟨1, 1, "WWWW1111"⟩, ⟨2, 2, "WWWW2222"⟩] := rfl
       rw [hch] at he
       simp only [List.mem_cons, List.not_mem_nil, or_false] at he
       rcases he with rfl | rfl
       · exact le_refl _
       · exact le_refl _)⟩
